import Mathlib

/-!
Shallow embedding of the Product Health Scanner scoring core
(`src/product_health_scanner_react_pwa_demo.jsx`) and of the Netlify analyze
function (`netlify/functions/analyze.js`), together with proofs settling the
specification claims.

Conventions of the embedding:
* JS numbers are modelled as `ℚ` (all numbers reaching these code paths come
  from pixel bytes, JSON, or arithmetic on them; JSON cannot encode NaN or
  Infinity, and the decimal literals of the source are embedded as exact
  rationals, the standard idealisation of float arithmetic).
* `Math.round` is `jsRound q = ⌊q + 1/2⌋` (JS rounds half toward +∞).
* JS strings are modelled as `List Char`; `s.slice(0,n)` is `List.take n`.
* `Math.sqrt` (used only for the chroma confidence component) is irrational,
  so `analyzeStep` is parameterised over an arbitrary function
  `sqrtQ : ℚ → ℚ` standing for it; every theorem below holds for every such
  function, hence in particular for the real square root.
* Mutation of the React refs (`historyRef` etc.) becomes explicit state
  passing through `AnalyzerState`.
-/

namespace PHS

/-- JS `Math.round`: round half toward positive infinity. -/
def jsRound (q : ℚ) : ℤ := ⌊q + 1/2⌋

/-- `greenToScore` (jsx lines 10-13): map 0..1 to 1..10 via
`Math.round(Math.min(1, Math.max(0, g)) * 9) + 1`. -/
def greenToScore (g : ℚ) : ℤ := jsRound (min 1 (max 0 g) * 9) + 1

/-- The ascending numeric sort `[...arr].sort((a,b)=>a-b)` used throughout. -/
def sortQ (l : List ℚ) : List ℚ := l.insertionSort (· ≤ ·)

/-- `median` (jsx lines 16-20): `0` on the empty list, else the element at
index `Math.floor(length/2)` of the ascending sort. -/
def median (l : List ℚ) : ℚ :=
  if l = [] then 0 else (sortQ l).getD (l.length / 2) 0

/-- `trimmedMean` (jsx lines 23-29): sort, drop `Math.floor(length*trim)`
elements from each tail, average the rest.  (For the trims 0.1/0.15 used by
the source the trimmed slice is never empty.) -/
def trimmedMean (l : List ℚ) (trim : ℚ) : ℚ :=
  if l = [] then 0 else
    let s := sortQ l
    let k := (⌊(s.length : ℚ) * trim⌋).toNat
    let trimmed := (s.drop k).take (s.length - 2 * k)
    trimmed.sum / trimmed.length

/-- Lighting quality labels of the classifier (jsx lines 60-61). -/
inductive Lighting
  | OK
  | TooDark
  | TooBright
  | LowTexture
deriving DecidableEq, Repr

/-- Lighting classification (jsx line 61):
brightness `< 0.12` → Too Dark; `> 0.85` → Too Bright; else variance
`< 0.002` → Low Texture; else OK. -/
def classifyLighting (avgB avgV : ℚ) : Lighting :=
  if avgB < 12/100 then .TooDark
  else if 85/100 < avgB then .TooBright
  else if avgV < 2/1000 then .LowTexture
  else .OK

/-- Output of the Frame Sampler: the per-frame channel averages
(`rAvg`,`gAvg`,`bAvg`, each a byte average divided by 255) and the variance
of the coarser luminance sample (jsx lines 40-51). The luminance pushed into
the brightness window is derived from the averages (line 45). -/
structure FrameStats where
  r : ℚ
  g : ℚ
  b : ℚ
  variance : ℚ
deriving Repr, DecidableEq

/-- `luminance` (jsx line 45): `0.2126*rAvg + 0.7152*gAvg + 0.0722*bAvg`. -/
def luminanceOf (f : FrameStats) : ℚ :=
  2126/10000 * f.r + 7152/10000 * f.g + 722/10000 * f.b

/-- `greenDominance` (jsx line 63): `gAvg/(rAvg+gAvg+bAvg+1e-6)`. -/
def greenDominance (f : FrameStats) : ℚ :=
  f.g / (f.r + f.g + f.b + 1/1000000)

/-- `rawScore` (jsx lines 64-65):
`Math.max(0, greenDominance - Math.abs(rAvg-bAvg)*0.15)`. -/
def rawScoreOf (f : FrameStats) : ℚ :=
  max 0 (greenDominance f - |f.r - f.b| * (15/100))

/-- Bounded-window push: `w.push(x); if (w.length > cap) w.shift()`. -/
def pushWindow (cap : ℕ) (w : List ℚ) (x : ℚ) : List ℚ :=
  let w1 := w ++ [x]
  if cap < w1.length then w1.tail else w1

/-- The IQR outlier filter applied to the history window (jsx lines 71-73):
median and quartiles are read off the ascending sort at floored fractional
indices, a zero IQR is replaced by `1e-6` (JS `|| 1e-6`), and entries outside
`median ± 1.5*iqr` are dropped. -/
def iqrFiltered (hist : List ℚ) : List ℚ :=
  let sorted := sortQ hist
  let med := sorted.getD (hist.length / 2) 0
  let iqr0 := sorted.getD (3 * hist.length / 4) 0 - sorted.getD (hist.length / 4) 0
  let iqr := if iqr0 = 0 then 1/1000000 else iqr0
  hist.filter (fun v => decide (med - 3/2 * iqr ≤ v) && decide (v ≤ med + 3/2 * iqr))

/-- The smoothed signal (jsx line 74): median of the IQR-filtered window,
falling back to the unfiltered window when the filter empties it. -/
def smoothedOf (hist : List ℚ) : ℚ :=
  median (if iqrFiltered hist = [] then hist else iqrFiltered hist)

/-- The three rolling windows owned by `useHealthAnalyzer`
(`historyRef`, `brightnessHistoryRef`, `varianceHistoryRef`). -/
structure AnalyzerState where
  hist : List ℚ
  bright : List ℚ
  varw : List ℚ
deriving Repr, DecidableEq

/-- All three windows start empty. -/
def initState : AnalyzerState := ⟨[], [], []⟩

/-- Result of one `analyzeImageData` call: the new window state plus the
fields of the returned object (advisory strings omitted; no claim concerns
them). -/
structure AnalyzeOut where
  state : AnalyzerState
  smoothed : ℚ
  mappedScore : ℤ
  conf : ℚ
  lighting : Lighting
deriving Repr

/-- Brightness window after a frame (jsx lines 53-54): push the derived
luminance, capacity 30. -/
def brightAfter (s : AnalyzerState) (f : FrameStats) : List ℚ :=
  pushWindow 30 s.bright (luminanceOf f)

/-- Variance window after a frame (jsx lines 55-56): push the sampled
variance, capacity 30. -/
def varwAfter (s : AnalyzerState) (f : FrameStats) : List ℚ :=
  pushWindow 30 s.varw f.variance

/-- `avgVariance` (jsx line 59): 0.15-trimmed mean of the variance window. -/
def avgVarianceAfter (s : AnalyzerState) (f : FrameStats) : ℚ :=
  trimmedMean (varwAfter s f) (15/100)

/-- `lightingState` for the frame (jsx lines 58-61), classified from the
0.15-trimmed means of the freshly pushed brightness/variance windows. -/
def lightingAfter (s : AnalyzerState) (f : FrameStats) : Lighting :=
  classifyLighting (trimmedMean (brightAfter s f) (15/100)) (avgVarianceAfter s f)

/-- History window after a frame (jsx lines 67-69): push the raw score
(cap 25); if the lighting state is degraded (and the window non-empty,
always true after the push), replace the just-pushed entry by
`median(hist)*0.7 + rawScore*0.3`, where `hist` already contains the new
raw score. -/
def histAfter (s : AnalyzerState) (f : FrameStats) : List ℚ :=
  let hist1 := pushWindow 25 s.hist (rawScoreOf f)
  if lightingAfter s f ≠ Lighting.OK ∧ hist1 ≠ [] then
    hist1.dropLast ++ [median hist1 * (7/10) + rawScoreOf f * (3/10)]
  else hist1

/-- Confidence assembly (jsx lines 77-85): weighted dominance/chroma/
stability components, +0.1 bonus for a full-ish window, lighting and
low-variance penalties, then floor 0.2 and cap 1. -/
def confAfter (sqrtQ : ℚ → ℚ) (s : AnalyzerState) (f : FrameStats) : ℚ :=
  let sorted := sortQ (histAfter s f)
  let dominanceComponent := min 1 (|greenDominance f - 1/3| * (22/10))
  let chroma := sqrtQ (((f.r - f.g)^2 + (f.g - f.b)^2 + (f.r - f.b)^2) / 3)
  let chromaComponent := min 1 (chroma * (18/10))
  let stability := 1 - (sorted.getLast?.getD 0 - sorted.headD 0)
  let stabilityComponent := max 0 (min 1 stability)
  let conf0 := dominanceComponent * (45/100) + chromaComponent * (25/100)
    + stabilityComponent * (30/100)
  let conf1 := if 10 ≤ (histAfter s f).length then min 1 (conf0 + 1/10) else conf0
  let conf2 := if lightingAfter s f ≠ Lighting.OK then conf1 * (7/10) else conf1
  let conf3 := if avgVarianceAfter s f < 2/1000 then conf2 * (75/100) else conf2
  max (2/10) (min 1 conf3)

/-- One call of `analyzeImageData` (jsx lines 37-90) on a non-degenerate
frame, from the point where the Frame Sampler statistics are available. -/
def analyzeStep (sqrtQ : ℚ → ℚ) (s : AnalyzerState) (f : FrameStats) : AnalyzeOut :=
  ⟨⟨histAfter s f, brightAfter s f, varwAfter s f⟩,
    smoothedOf (histAfter s f),
    greenToScore (smoothedOf (histAfter s f)),
    confAfter sqrtQ s f,
    lightingAfter s f⟩

/-- The window state after one frame; equals `(analyzeStep sqrtQ s f).state`
definitionally (the windows do not depend on the confidence path). -/
def stepState (s : AnalyzerState) (f : FrameStats) : AnalyzerState :=
  ⟨histAfter s f, brightAfter s f, varwAfter s f⟩

/-- Fold the per-frame window update over a sequence of frame samples
(the refs persist across calls). -/
def runAnalyzer (frames : List FrameStats) : AnalyzerState :=
  frames.foldl stepState initState

/-! ### Announcement gate (jsx lines 110-111 and 296-315)

State: `stableRef` (last tracked value, initially `null`), `consecutiveStableRef`
(initially 0), and the displayed `score` React state (initially `null`).
A local tick is the functional `setScore` update of `captureAndAnalyze`;
the displayed score is also written by the remote-enrichment merge
(jsx line 166) and the upload path (jsx line 401), modelled as `setDisp`. -/

structure GateState where
  held : Option ℤ
  count : ℕ
  disp : Option ℤ
deriving DecidableEq, Repr

/-- Initial gate state: `stableRef = null`, count 0, no displayed score. -/
def gateInit : GateState := ⟨none, 0, none⟩

/-- The entry guard `prev === null || Math.abs(mappedScore - prev) >= 1`. -/
def bigChange (M : ℤ) : Option ℤ → Bool
  | none => true
  | some p => decide (1 ≤ |M - p|)

/-- One local tick (jsx lines 298-315): on a material change, track
persistence (increment the counter when the tracked value repeats, else
restart it at 1), speak exactly when voice is enabled, audio is unlocked,
the counter reached 2 and the value differs from the displayed score, and
return the new mapped score as the displayed value; otherwise keep the
previous display.  The `Bool` is the `speakScore` emission. -/
def gateStep (voice activated : Bool) (M : ℤ) (s : GateState) : GateState × Bool :=
  if bigChange M s.disp then
    let count1 := if s.held = some M then s.count + 1 else 1
    (⟨some M, count1, some M⟩,
      voice && activated && decide (2 ≤ count1) && decide (s.disp ≠ some M))
  else (s, false)

/-- Events acting on the gate state: a local analysis tick, or an external
write of the displayed score (remote merge / upload path), which touches
neither `stableRef` nor the counter. -/
inductive GEvent
  | tick (voice activated : Bool) (M : ℤ)
  | setDisp (x : ℤ)
deriving DecidableEq, Repr

/-- One event step; the second component is the announced value, if any. -/
def gstep (s : GateState) : GEvent → GateState × Option ℤ
  | .tick v a M =>
    let r := gateStep v a M s
    (r.1, if r.2 then some M else none)
  | .setDisp x => (⟨s.held, s.count, some x⟩, none)

/-- Run a list of gate events. -/
def runGate (s : GateState) : List GEvent → GateState
  | [] => s
  | e :: es => runGate (gstep s e).1 es

/-- State before event `i` of the trace. -/
def gateStateAt (s : GateState) (es : List GEvent) (i : ℕ) : GateState :=
  runGate s (es.take i)

/-- Value announced by event `i` of the trace, if any. -/
def emitAt (s : GateState) (es : List GEvent) (i : ℕ) : Option ℤ :=
  match es[i]? with
  | some e => (gstep (gateStateAt s es i) e).2
  | none => none

/-- Whether event `t` of the trace is a local tick carrying value `v`. -/
def isTickOf (es : List GEvent) (v : ℤ) (t : ℕ) : Bool :=
  match es[t]? with
  | some (.tick _ _ M) => decide (M = v)
  | _ => false

/-- Number of local ticks carrying `v` with index in the interval `(k, j]`. -/
def ticksIn (es : List GEvent) (v : ℤ) (k j : ℕ) : ℕ :=
  ((List.range (j + 1)).filter (fun t => decide (k < t) && isTickOf es v t)).length

/-! ### Remote enrichment client (jsx lines 147-181)

`apiPending`, `lastApiRef` and `backoffRef`, with the throttle guard
`now - lastApiRef.current < 2500 + backoffRef.current` and the
failure/success backoff updates. -/

structure ApiState where
  pending : Bool
  lastCall : ℤ
  backoff : ℤ
deriving DecidableEq, Repr

/-- Initial client state (`apiPending=false`, `lastApiRef=0`, `backoffRef=0`). -/
def apiInit : ApiState := ⟨false, 0, 0⟩

/-- The failure update (jsx lines 175-176):
`prev = backoff || 2000; backoff = Math.min(prev * 2, 60000)`. -/
def failedBackoff (b : ℤ) : ℤ := min ((if b = 0 then 2000 else b) * 2) 60000

/-- Backoff after `k` consecutive failed attempts starting from a reset
(`backoff = 0`) state. -/
def backoffIter : ℕ → ℤ
  | 0 => 0
  | k + 1 => failedBackoff (backoffIter k)

/-- Events acting on the client: an attempt trigger (with the mode flag,
connectivity and current time), or the completion of the in-flight call. -/
inductive ApiEvent
  | trigger (apiMode online : Bool) (now : ℤ)
  | complete (success : Bool)
deriving DecidableEq, Repr

/-- One client transition (jsx lines 147-181).  A trigger is a no-op when
the mode is off, a call is pending, the client is offline, or the throttle
window `2500 + backoff` has not elapsed; otherwise it records the call time
and marks the call in flight.  Completion clears the pending flag and
resets the backoff to 0 on success or applies `failedBackoff` on failure. -/
def apiStep (s : ApiState) : ApiEvent → ApiState
  | .trigger m onl now =>
    if !m || s.pending || !onl then s
    else if now - s.lastCall < 2500 + s.backoff then s
    else ⟨true, now, s.backoff⟩
  | .complete success =>
    if s.pending then
      if success then ⟨false, s.lastCall, 0⟩
      else ⟨false, s.lastCall, failedBackoff s.backoff⟩
    else s

/-! ### Netlify analyze function (`netlify/functions/analyze.js`)

JS strings are `List Char`; a JSON value that may or may not be a string is
a `JEntry`.  A request body field that is absent or of the wrong type is
`none`. -/

abbrev JStr := List Char

/-- An entry of a `pros`/`cons` array from the upstream JSON: either a
string or some non-string value. -/
inductive JEntry
  | str (s : JStr)
  | other
deriving DecidableEq, Repr

/-- The shape-relevant part of a parsed model output: each field is `some`
exactly when it is present with the type the code tests for
(`typeof raw.score === 'number'`, `Array.isArray(raw.pros)`, ...).
`none` at the outer `Option RawShape` models `!raw || typeof raw !== 'object'`. -/
structure RawShape where
  score : Option ℚ
  confidence : Option ℚ
  pros : Option (List JEntry)
  cons : Option (List JEntry)
  model : Option JStr
deriving Repr

/-- The sanitized result object built by `normalizeResult`. -/
structure NormResult where
  score : ℤ
  pros : List JStr
  cons : List JStr
  confidence : ℤ
  model : JStr
deriving Repr, DecidableEq

/-- `clamp` (analyze.js line 23): `Math.min(hi, Math.max(lo, v))`. -/
def clampZ (v lo hi : ℤ) : ℤ := min hi (max lo v)

/-- `limitList` (analyze.js line 26): keep only strings, first 6, each cut
to 60 characters; a non-array yields `[]`. -/
def limitList : Option (List JEntry) → List JStr
  | some l => ((l.filterMap fun e => match e with
      | .str s => some s
      | .other => none).take 6).map (fun s => s.take 60)
  | none => []

/-- `normalizeResult` (analyze.js lines 20-31). -/
def normalizeResult : Option RawShape → NormResult
  | none => ⟨5, [], [], 50, ("normalized").toList⟩
  | some raw =>
    ⟨(match raw.score with
        | some q => clampZ (jsRound q) 1 10
        | none => 5),
      limitList raw.pros,
      limitList raw.cons,
      (match raw.confidence with
        | some q => clampZ (jsRound q) 0 100
        | none => 50),
      (match raw.model with
        | some m => m.take 40
        | none => ("normalized").toList)⟩

/-- The mock result (analyze.js lines 113-121) produced because the real
model call is commented out, so `final` is always null before the fallback. -/
def mockRaw (modelTried : Bool) : RawShape where
  score := some 7
  confidence := some 65
  pros := some [.str ("Sample fresh indicator").toList,
    .str ("Balanced ingredients").toList]
  cons := some [.str ("Mock data - integrate real model").toList]
  model := some (if modelTried then ("fallback-mock").toList
    else ("placeholder-mock").toList)

/-- Shape-relevant part of the request body. -/
structure ReqBody where
  image_base64 : JStr
  use_model : Bool
deriving Repr

/-- The analyze handler (analyze.js lines 44-136), returning the HTTP
status code and, on success, the sanitized payload.  The credential check
comes first (500), then the method check (405), then the size check
(`image_base64.length * 0.75 > 400000`, exactly `3*len > 1600000`, and only
when `image_base64` is truthy) (413); otherwise the mock fallback result is
normalized and served with status 200. -/
def analyzeHandler (hasKey : Bool) (method : JStr) (body : ReqBody) :
    ℕ × Option NormResult :=
  if !hasKey then (500, none)
  else if method ≠ ("POST").toList then (405, none)
  else if body.image_base64 ≠ [] ∧ 1600000 < 3 * body.image_base64.length then
    (413, none)
  else (200, some (normalizeResult (some (mockRaw
    (body.use_model && body.image_base64 ≠ [])))))

/-- The update condition claimed by the spec for the Announcement Gate
(spec 4.5, claim C5): displayed score updates only when the
consecutive-stable count reached 2, voice is enabled, a qualifying user
interaction happened, and the value differs from the displayed score.
(Stated from the spec's words, to be compared against `gateStep`.) -/
def specGateCondition (voice activated : Bool) (M : ℤ) (s s1 : GateState) : Prop :=
  2 ≤ s1.count ∧ voice = true ∧ activated = true ∧ some M ≠ s.disp

/-! ## Supporting lemmas -/

theorem analyzeStep_state (sqrtQ : ℚ → ℚ) (s : AnalyzerState) (f : FrameStats) :
    (analyzeStep sqrtQ s f).state = stepState s f := rfl

theorem getD_mem {l : List ℚ} {i : ℕ} (h : i < l.length) : l.getD i 0 ∈ l := by
  rw [List.getD_eq_getElem _ _ h]
  exact List.getElem_mem h

theorem sortQ_perm (l : List ℚ) : (sortQ l).Perm l := List.perm_insertionSort _ l

theorem sortQ_length (l : List ℚ) : (sortQ l).length = l.length :=
  (sortQ_perm l).length_eq

theorem mem_sortQ {l : List ℚ} {x : ℚ} : x ∈ sortQ l ↔ x ∈ l :=
  (sortQ_perm l).mem_iff

theorem sortQ_sorted (l : List ℚ) : (sortQ l).Sorted (· ≤ ·) :=
  List.sorted_insertionSort _ l

theorem median_mem {l : List ℚ} (h : l ≠ []) : median l ∈ l := by
  unfold median
  rw [if_neg h]
  have hlen : l.length / 2 < (sortQ l).length := by
    rw [sortQ_length]
    have : 0 < l.length := List.length_pos.mpr h
    omega
  exact mem_sortQ.mp (getD_mem hlen)

theorem pushWindow_ne_nil (cap : ℕ) (hc : 1 ≤ cap) (w : List ℚ) (x : ℚ) :
    pushWindow cap w x ≠ [] := by
  simp only [pushWindow]
  split
  · rename_i h
    apply List.ne_nil_of_length_pos
    rw [List.length_tail, List.length_append] at *
    simp only [List.length_singleton] at *
    omega
  · simp

theorem pushWindow_length {cap : ℕ} {w : List ℚ} (h : w.length ≤ cap) (x : ℚ) :
    (pushWindow cap w x).length = min (w.length + 1) cap := by
  simp only [pushWindow]
  split <;> rename_i hb <;>
    simp only [List.length_tail, List.length_append, List.length_singleton] at * <;>
    omega

theorem mem_pushWindow {cap : ℕ} {w : List ℚ} {x y : ℚ}
    (hy : y ∈ pushWindow cap w x) : y ∈ w ∨ y = x := by
  simp only [pushWindow] at hy
  have hmem : y ∈ w ++ [x] := by
    split at hy
    · exact (List.tail_sublist _).subset hy
    · exact hy
  rcases List.mem_append.mp hmem with h | h
  · exact Or.inl h
  · exact Or.inr (List.mem_singleton.mp h)

theorem rawScoreOf_nonneg (f : FrameStats) : 0 ≤ rawScoreOf f := le_max_left _ _

theorem rawScoreOf_le_one {f : FrameStats}
    (hr : 0 ≤ f.r) (hg : 0 ≤ f.g) (hb : 0 ≤ f.b) : rawScoreOf f ≤ 1 := by
  unfold rawScoreOf greenDominance
  have hd : (0:ℚ) < f.r + f.g + f.b + 1/1000000 := by linarith
  have h1 : f.g / (f.r + f.g + f.b + 1/1000000) ≤ 1 := by
    rw [div_le_one hd]; linarith
  have h2 : (0:ℚ) ≤ |f.r - f.b| * (15/100) := by positivity
  apply max_le <;> linarith

theorem histAfter_ne_nil (s : AnalyzerState) (f : FrameStats) :
    histAfter s f ≠ [] := by
  simp only [histAfter]
  split
  · simp
  · exact pushWindow_ne_nil 25 (by norm_num) s.hist (rawScoreOf f)

theorem histAfter_mem_bounds {s : AnalyzerState} {f : FrameStats}
    (hs : ∀ x ∈ s.hist, 0 ≤ x ∧ x ≤ 1)
    (hr : 0 ≤ f.r) (hg : 0 ≤ f.g) (hb : 0 ≤ f.b) :
    ∀ x ∈ histAfter s f, 0 ≤ x ∧ x ≤ 1 := by
  have hraw : 0 ≤ rawScoreOf f ∧ rawScoreOf f ≤ 1 :=
    ⟨rawScoreOf_nonneg f, rawScoreOf_le_one hr hg hb⟩
  have h1 : ∀ x ∈ pushWindow 25 s.hist (rawScoreOf f), 0 ≤ x ∧ x ≤ 1 := by
    intro x hx
    rcases mem_pushWindow hx with h | h
    · exact hs x h
    · exact h ▸ hraw
  simp only [histAfter]
  split
  · rename_i hcond
    intro x hx
    rcases List.mem_append.mp hx with h | h
    · exact h1 x ((List.dropLast_sublist _).subset h)
    · rw [List.mem_singleton.mp h]
      obtain ⟨hm0, hm1⟩ := h1 _ (median_mem hcond.2)
      constructor <;> nlinarith [hraw.1, hraw.2]
  · exact h1

theorem iqrFiltered_subset (hist : List ℚ) : iqrFiltered hist ⊆ hist :=
  fun _ hx => List.mem_of_mem_filter hx

theorem smoothedOf_mem {hist : List ℚ} (h : hist ≠ []) : smoothedOf hist ∈ hist := by
  simp only [smoothedOf]
  split
  · exact median_mem h
  · rename_i hne
    exact iqrFiltered_subset _ (median_mem hne)

theorem greenToScore_bounds (g : ℚ) : 1 ≤ greenToScore g ∧ greenToScore g ≤ 10 := by
  unfold greenToScore jsRound
  have h0 : (0:ℚ) ≤ min 1 (max 0 g) := le_min (by norm_num) (le_max_left 0 g)
  have h1 : min 1 (max 0 g) ≤ 1 := min_le_left _ _
  constructor
  · have hlow : (⌊(1/2 : ℚ)⌋ : ℤ) ≤ ⌊min 1 (max 0 g) * 9 + 1/2⌋ :=
      Int.floor_le_floor (by nlinarith)
    norm_num at hlow
    omega
  · have hhigh : (⌊min 1 (max 0 g) * 9 + 1/2⌋ : ℤ) ≤ ⌊(19/2 : ℚ)⌋ :=
      Int.floor_le_floor (by nlinarith)
    norm_num at hhigh
    omega

theorem stepState_hist (s : AnalyzerState) (f : FrameStats) :
    (stepState s f).hist = histAfter s f := rfl

theorem foldl_hist_bounds (frames : List FrameStats) (s : AnalyzerState)
    (hf : ∀ f ∈ frames, 0 ≤ f.r ∧ 0 ≤ f.g ∧ 0 ≤ f.b)
    (hs : ∀ x ∈ s.hist, 0 ≤ x ∧ x ≤ 1) :
    ∀ x ∈ (frames.foldl stepState s).hist, 0 ≤ x ∧ x ≤ 1 := by
  induction frames generalizing s with
  | nil => simpa using hs
  | cons f fs ih =>
    simp only [List.foldl_cons]
    refine ih _ (fun g hg => hf g (List.mem_cons_of_mem _ hg)) ?_
    have h := hf f (List.mem_cons_self _ _)
    rw [stepState_hist]
    exact histAfter_mem_bounds hs h.1 h.2.1 h.2.2

theorem runAnalyzer_hist_bounds {frames : List FrameStats}
    (hf : ∀ f ∈ frames, 0 ≤ f.r ∧ 0 ≤ f.g ∧ 0 ≤ f.b) :
    ∀ x ∈ (runAnalyzer frames).hist, 0 ≤ x ∧ x ≤ 1 :=
  foldl_hist_bounds frames initState hf (by simp [initState])

theorem histAfter_length {s : AnalyzerState} (f : FrameStats)
    (h : s.hist.length ≤ 25) :
    (histAfter s f).length = min (s.hist.length + 1) 25 := by
  have hl := pushWindow_length h (rawScoreOf f)
  have hne := pushWindow_ne_nil 25 (by norm_num) s.hist (rawScoreOf f)
  have hpos : 0 < (pushWindow 25 s.hist (rawScoreOf f)).length :=
    List.length_pos.mpr hne
  simp only [histAfter]
  split
  · rw [List.length_append, List.length_dropLast, hl, List.length_singleton]
    omega
  · exact hl

theorem foldl_window_lengths (frames : List FrameStats) (s : AnalyzerState)
    (h1 : s.hist.length ≤ 25) (h2 : s.bright.length ≤ 30)
    (h3 : s.varw.length ≤ 30) :
    (frames.foldl stepState s).hist.length = min (s.hist.length + frames.length) 25 ∧
    (frames.foldl stepState s).bright.length = min (s.bright.length + frames.length) 30 ∧
    (frames.foldl stepState s).varw.length = min (s.varw.length + frames.length) 30 := by
  induction frames generalizing s with
  | nil => simp; omega
  | cons f fs ih =>
    simp only [List.foldl_cons, List.length_cons]
    have e1 : (stepState s f).hist.length = min (s.hist.length + 1) 25 :=
      histAfter_length f h1
    have e2 : (stepState s f).bright.length = min (s.bright.length + 1) 30 :=
      pushWindow_length h2 _
    have e3 : (stepState s f).varw.length = min (s.varw.length + 1) 30 :=
      pushWindow_length h3 _
    obtain ⟨g1, g2, g3⟩ := ih (stepState s f) (by omega) (by omega) (by omega)
    refine ⟨?_, ?_, ?_⟩
    · rw [g1, e1]; omega
    · rw [g2, e2]; omega
    · rw [g3, e3]; omega

/-! ## Claim theorems -/

/-- **C1.** For any sequence of raw scores pushed through the Signal Smoother
(`analyzeImageData` with nonnegative channel averages, as the Frame Sampler
produces), the smoothed value (median of the IQR-filtered history window)
stays in `[0,1]`, and the mapped score `greenToScore(smoothed)` is an
integer (a `ℤ` by construction) in `[1,10]`. -/
theorem C1_smoothed_and_mapped_in_range (sqrtQ : ℚ → ℚ)
    (frames : List FrameStats) (f : FrameStats)
    (hf : ∀ g ∈ frames ++ [f], 0 ≤ g.r ∧ 0 ≤ g.g ∧ 0 ≤ g.b) :
    (0 ≤ (analyzeStep sqrtQ (runAnalyzer frames) f).smoothed ∧
      (analyzeStep sqrtQ (runAnalyzer frames) f).smoothed ≤ 1) ∧
    (1 ≤ (analyzeStep sqrtQ (runAnalyzer frames) f).mappedScore ∧
      (analyzeStep sqrtQ (runAnalyzer frames) f).mappedScore ≤ 10) := by
  have hfr : ∀ g ∈ frames, 0 ≤ g.r ∧ 0 ≤ g.g ∧ 0 ≤ g.b := by
    intro g hg
    exact hf g (List.mem_append_left _ hg)
  have hl := hf f (List.mem_append_right _ (List.mem_singleton_self f))
  have hhist := runAnalyzer_hist_bounds hfr
  have hbounds : ∀ x ∈ histAfter (runAnalyzer frames) f, 0 ≤ x ∧ x ≤ 1 :=
    histAfter_mem_bounds hhist hl.1 hl.2.1 hl.2.2
  have hsm : (analyzeStep sqrtQ (runAnalyzer frames) f).smoothed ∈
      histAfter (runAnalyzer frames) f :=
    smoothedOf_mem (histAfter_ne_nil _ _)
  have h01 := hbounds _ hsm
  exact ⟨h01, greenToScore_bounds _⟩

/-- Closed witness for C1: a single mid-gray frame after an empty prefix
satisfies the hypotheses, and the claim holds there. -/
theorem C1_witness :
    (∀ g ∈ ([] ++ [(⟨1/2, 1/2, 1/2, 0⟩ : FrameStats)]), 0 ≤ g.r ∧ 0 ≤ g.g ∧ 0 ≤ g.b) ∧
    ((0 ≤ (analyzeStep (fun _ => 0) (runAnalyzer []) ⟨1/2, 1/2, 1/2, 0⟩).smoothed ∧
      (analyzeStep (fun _ => 0) (runAnalyzer []) ⟨1/2, 1/2, 1/2, 0⟩).smoothed ≤ 1) ∧
    (1 ≤ (analyzeStep (fun _ => 0) (runAnalyzer []) ⟨1/2, 1/2, 1/2, 0⟩).mappedScore ∧
      (analyzeStep (fun _ => 0) (runAnalyzer []) ⟨1/2, 1/2, 1/2, 0⟩).mappedScore ≤ 10)) := by
  constructor
  · intro g hg
    rw [List.nil_append, List.mem_singleton] at hg
    subst hg
    norm_num
  · refine C1_smoothed_and_mapped_in_range (fun _ => 0) [] _ ?_
    intro g hg
    rw [List.nil_append, List.mem_singleton] at hg
    subst hg
    norm_num

/-- **C3.** After `N` frame samples have been processed, the history
window's length equals `min N 25` and the brightness and variance windows'
lengths equal `min N 30`; in particular no window ever exceeds its
capacity after any number of operations. -/
theorem C3_window_lengths (frames : List FrameStats) :
    ((runAnalyzer frames).hist.length = min frames.length 25 ∧
      (runAnalyzer frames).bright.length = min frames.length 30 ∧
      (runAnalyzer frames).varw.length = min frames.length 30) ∧
    ((runAnalyzer frames).hist.length ≤ 25 ∧
      (runAnalyzer frames).bright.length ≤ 30 ∧
      (runAnalyzer frames).varw.length ≤ 30) := by
  obtain ⟨g1, g2, g3⟩ := foldl_window_lengths frames initState
    (by simp [initState]) (by simp [initState]) (by simp [initState])
  unfold runAnalyzer
  rw [g1, g2, g3]
  simp [initState]

/-- **C7.** For every frame processed, the internal confidence value is in
`[0,1]` and never below its floor `0.2` after the final floor-and-cap step,
and the externally reported percentage `Math.round(conf*100)` (jsx line
322) is an integer (a `ℤ` by construction) in `[0,100]`, never below the
floor scaled to percent (20). -/
theorem C7_confidence_bounds (sqrtQ : ℚ → ℚ) (s : AnalyzerState) (f : FrameStats) :
    (2/10 ≤ (analyzeStep sqrtQ s f).conf ∧ (analyzeStep sqrtQ s f).conf ≤ 1) ∧
    (0 ≤ jsRound ((analyzeStep sqrtQ s f).conf * 100) ∧
      jsRound ((analyzeStep sqrtQ s f).conf * 100) ≤ 100 ∧
      20 ≤ jsRound ((analyzeStep sqrtQ s f).conf * 100)) := by
  have hshape : 2/10 ≤ (analyzeStep sqrtQ s f).conf ∧
      (analyzeStep sqrtQ s f).conf ≤ 1 := by
    show 2/10 ≤ confAfter sqrtQ s f ∧ confAfter sqrtQ s f ≤ 1
    simp only [confAfter]
    exact ⟨le_max_left _ _, max_le (by norm_num) (min_le_left _ _)⟩
  refine ⟨hshape, ?_, ?_, ?_⟩
  · unfold jsRound
    exact Int.le_floor.mpr (by push_cast; nlinarith [hshape.1])
  · unfold jsRound
    have hle : (⌊(analyzeStep sqrtQ s f).conf * 100 + 1/2⌋ : ℤ) ≤ ⌊(201/2 : ℚ)⌋ :=
      Int.floor_le_floor (by nlinarith [hshape.2])
    norm_num at hle
    exact hle
  · unfold jsRound
    exact Int.le_floor.mpr (by push_cast; nlinarith [hshape.1])

theorem quartile_le {hist : List ℚ} (h : hist ≠ []) :
    (sortQ hist).getD (hist.length / 4) 0 ≤ (sortQ hist).getD (3 * hist.length / 4) 0 := by
  have hlen : 0 < hist.length := List.length_pos.mpr h
  have h1 : hist.length / 4 < (sortQ hist).length := by rw [sortQ_length]; omega
  have h2 : 3 * hist.length / 4 < (sortQ hist).length := by rw [sortQ_length]; omega
  rw [List.getD_eq_get _ _ h1, List.getD_eq_get _ _ h2]
  exact (sortQ_sorted hist).rel_get_of_le (by simp only [Fin.mk_le_mk]; omega)

theorem median_mem_iqrFiltered {hist : List ℚ} (h : hist ≠ []) :
    median hist ∈ iqrFiltered hist := by
  have hmm : median hist ∈ hist := median_mem h
  have hmed : median hist = (sortQ hist).getD (hist.length / 2) 0 := by
    rw [median, if_neg h]
  have hq := quartile_le h
  simp only [iqrFiltered]
  rw [List.mem_filter]
  refine ⟨hmm, ?_⟩
  simp only [Bool.and_eq_true, decide_eq_true_eq]
  rw [← hmed]
  split
  · constructor <;> linarith
  · constructor <;> linarith

theorem iqrFiltered_ne_nil {hist : List ℚ} (h : hist ≠ []) : iqrFiltered hist ≠ [] :=
  List.ne_nil_of_mem (median_mem_iqrFiltered h)

/-- **C10.** For every non-empty history window, the IQR-filtered subset
contains the window's median element and is therefore never empty, so the
fallback branch re-taking the median of the unfiltered window is
unreachable: the smoothed value is always the median of the filtered
subset. -/
theorem C10_iqr_filter_never_empty (hist : List ℚ) (h : hist ≠ []) :
    median hist ∈ iqrFiltered hist ∧ iqrFiltered hist ≠ [] ∧
    smoothedOf hist = median (iqrFiltered hist) := by
  refine ⟨median_mem_iqrFiltered h, iqrFiltered_ne_nil h, ?_⟩
  simp only [smoothedOf]
  rw [if_neg (iqrFiltered_ne_nil h)]

/-- Closed witness for C10 at the concrete window `[1/2]`. -/
theorem C10_witness :
    ([(1:ℚ)/2] ≠ []) ∧
    (median [(1:ℚ)/2] ∈ iqrFiltered [(1:ℚ)/2] ∧ iqrFiltered [(1:ℚ)/2] ≠ [] ∧
      smoothedOf [(1:ℚ)/2] = median (iqrFiltered [(1:ℚ)/2])) :=
  ⟨by simp, C10_iqr_filter_never_empty _ (by simp)⟩

/-- Counterexample to **C2** as stated.  Start from the one-frame history
left by a mid-gray frame (Low Texture lighting: zero variance), then feed a
green frame.  The code pushes the new raw score first and damps toward the
median of the window *including* it (jsx line 69 computes `median(hist)`
after `hist.push(rawScore)`), which here is the new value itself, so the
stored value is the undamped raw score — not
`0.7*median(prior window) + 0.3*raw` as claimed. -/
theorem C2_counterexample :
    lightingAfter (runAnalyzer [⟨1/2, 1/2, 1/2, 0⟩]) ⟨1/10, 8/10, 1/10, 0⟩ ≠
      Lighting.OK ∧
    (runAnalyzer [⟨1/2, 1/2, 1/2, 0⟩]).hist ≠ [] ∧
    (histAfter (runAnalyzer [⟨1/2, 1/2, 1/2, 0⟩]) ⟨1/10, 8/10, 1/10, 0⟩).getLast? ≠
      some (median (runAnalyzer [⟨1/2, 1/2, 1/2, 0⟩]).hist * (7/10)
        + rawScoreOf ⟨1/10, 8/10, 1/10, 0⟩ * (3/10)) := by
  have e1 : runAnalyzer [(⟨1/2, 1/2, 1/2, 0⟩ : FrameStats)] =
      ⟨[500000/1500001], [1/2], [0]⟩ := by
    norm_num [runAnalyzer, stepState, initState, histAfter, lightingAfter,
      brightAfter, varwAfter, avgVarianceAfter, pushWindow, luminanceOf,
      trimmedMean, classifyLighting, sortQ, List.insertionSort,
      List.orderedInsert, median, rawScoreOf, greenDominance, List.cons_ne_nil]
  rw [e1]
  have eL : lightingAfter ⟨[500000/1500001], [1/2], [0]⟩ ⟨1/10, 8/10, 1/10, 0⟩ =
      Lighting.LowTexture := by
    norm_num [lightingAfter, brightAfter, varwAfter, avgVarianceAfter, pushWindow,
      luminanceOf, trimmedMean, classifyLighting, sortQ, List.insertionSort,
      List.orderedInsert, List.cons_ne_nil]
  have eH : histAfter ⟨[500000/1500001], [1/2], [0]⟩ ⟨1/10, 8/10, 1/10, 0⟩ =
      [500000/1500001, 800000/1000001] := by
    norm_num [histAfter, eL, pushWindow, rawScoreOf, greenDominance, median,
      sortQ, List.insertionSort, List.orderedInsert, List.cons_ne_nil]
  refine ⟨by rw [eL]; simp, by simp, ?_⟩
  rw [eH]
  norm_num [median, sortQ, List.insertionSort, List.orderedInsert, rawScoreOf,
    greenDominance, List.cons_ne_nil]

/-- **C2 (amended).** Whenever the Lighting Classifier reports a degraded
state, the value stored for the new frame equals
`0.7 * median(window after the new raw value is pushed and capacity
eviction applied) + 0.3 * raw`: the push happens first and the damping
overwrites the just-pushed (last) entry, rather than being applied to the
prior window's median before the push. -/
theorem C2_amended_damping (s : AnalyzerState) (f : FrameStats)
    (h : lightingAfter s f ≠ Lighting.OK) :
    (histAfter s f).getLast? =
      some (median (pushWindow 25 s.hist (rawScoreOf f)) * (7/10)
        + rawScoreOf f * (3/10)) := by
  have hne := pushWindow_ne_nil 25 (by norm_num) s.hist (rawScoreOf f)
  simp only [histAfter]
  rw [if_pos ⟨h, hne⟩]
  simp

/-- Closed witness for the amended C2: a first mid-gray zero-variance frame
is classified Low Texture, and the stored entry is exactly the damped
combination around the post-push median. -/
theorem C2_amended_witness :
    lightingAfter initState ⟨1/2, 1/2, 1/2, 0⟩ ≠ Lighting.OK ∧
    (histAfter initState ⟨1/2, 1/2, 1/2, 0⟩).getLast? =
      some (median (pushWindow 25 initState.hist (rawScoreOf ⟨1/2, 1/2, 1/2, 0⟩)) * (7/10)
        + rawScoreOf ⟨1/2, 1/2, 1/2, 0⟩ * (3/10)) := by
  have hL0 : lightingAfter initState ⟨1/2, 1/2, 1/2, 0⟩ = Lighting.LowTexture := by
    norm_num [lightingAfter, brightAfter, varwAfter, avgVarianceAfter, pushWindow,
      luminanceOf, trimmedMean, classifyLighting, initState, sortQ,
      List.insertionSort, List.orderedInsert, List.cons_ne_nil]
  have hL : lightingAfter initState ⟨1/2, 1/2, 1/2, 0⟩ ≠ Lighting.OK := by
    rw [hL0]; simp
  exact ⟨hL, C2_amended_damping _ _ hL⟩

/-- Counterexample to **C5** as stated: with voice disabled and no user
interaction, a first tick (count becomes 1) still updates the displayed
score from `null` to the mapped score — the four gate conditions restrict
only the speech emission, not the display update. -/
theorem C5_counterexample :
    (gateStep false false 5 gateInit).1.disp = some 5 ∧
    (gateStep false false 5 gateInit).1.disp ≠ gateInit.disp ∧
    ¬ specGateCondition false false 5 gateInit (gateStep false false 5 gateInit).1 := by
  refine ⟨by decide, by decide, ?_⟩
  intro h
  exact absurd h.2.1 (by decide)

/-- **C5 (amended).** On a new mapped score `M`: when the entry guard holds
(no displayed score yet, or `|M - prev| ≥ 1`), the displayed score updates
to `M` unconditionally, and the announcement fires exactly when voice is
enabled, audio is user-unlocked, the (updated) consecutive-stable count is
≥ 2 and `M` differs from the previously displayed score; when the entry
guard fails, state and display are retained unchanged and nothing fires. -/
theorem C5_amended_gate (voice activated : Bool) (M : ℤ) (s : GateState) :
    (bigChange M s.disp = true →
      (gateStep voice activated M s).1.disp = some M ∧
      ((gateStep voice activated M s).2 = true ↔
        voice = true ∧ activated = true ∧
        2 ≤ (gateStep voice activated M s).1.count ∧ s.disp ≠ some M)) ∧
    (bigChange M s.disp = false → gateStep voice activated M s = (s, false)) := by
  constructor
  · intro h
    refine ⟨by simp [gateStep, h], ?_⟩
    simp only [gateStep, h]
    simp only [eq_self_iff_true, if_true, Bool.and_eq_true, decide_eq_true_eq]
    tauto
  · intro h
    simp [gateStep, h]

/-- Closed witness for the amended C5: a second consecutive tick of value 5
against a displayed 3 updates the display and fires. -/
theorem C5_amended_witness :
    bigChange 5 (⟨some 5, 1, some 3⟩ : GateState).disp = true ∧
    ((gateStep true true 5 ⟨some 5, 1, some 3⟩).1.disp = some 5 ∧
      ((gateStep true true 5 ⟨some 5, 1, some 3⟩).2 = true ↔
        true = true ∧ true = true ∧
        2 ≤ (gateStep true true 5 ⟨some 5, 1, some 3⟩).1.count ∧
        (⟨some 5, 1, some 3⟩ : GateState).disp ≠ some 5)) :=
  ⟨by decide, (C5_amended_gate true true 5 ⟨some 5, 1, some 3⟩).1 (by decide)⟩

theorem backoffIter_closed (k : ℕ) (hk : 1 ≤ k) :
    backoffIter k = min (2000 * 2 ^ k) 60000 := by
  induction k with
  | zero => omega
  | succ n ih =>
    by_cases hn0 : n = 0
    · subst hn0
      simp [backoffIter, failedBackoff]
    · have hn : 1 ≤ n := by omega
      have ihn := ih hn
      simp only [backoffIter, ihn, failedBackoff]
      have hpos : (0:ℤ) < 2000 * 2 ^ n := by positivity
      have hne : min ((2000:ℤ) * 2 ^ n) 60000 ≠ 0 := by
        have h1 : (0:ℤ) < min (2000 * 2 ^ n) 60000 := lt_min hpos (by norm_num)
        omega
      rw [if_neg hne]
      rcases le_total ((2000:ℤ) * 2 ^ n) 60000 with h | h
      · rw [min_eq_left h, pow_succ]
        ring_nf
      · rw [min_eq_right h]
        have h2 : (60000:ℤ) ≤ 2000 * 2 ^ (n + 1) := by
          rw [pow_succ]
          nlinarith
        rw [min_eq_right h2]
        norm_num

/-- **C4.** Backoff discipline of the Remote Enrichment Client: a trigger
while a call is pending is a no-op (at most one call in flight); one
successful completion resets the backoff to 0; a failed completion doubles
the backoff from the 2 s floor (`backoff || 2000`, then `*2`) capped at the
60 s ceiling — in particular a positive backoff below the ceiling strictly
doubles, the ceiling is never exceeded, and after `k ≥ 1` consecutive
failures from a reset state the backoff is exactly `min (2000·2^k) 60000`. -/
theorem C4_backoff (s : ApiState) (m onl : Bool) (now : ℤ) (k : ℕ) :
    (s.pending = true → apiStep s (.trigger m onl now) = s) ∧
    (s.pending = true → apiStep s (.complete true) = ⟨false, s.lastCall, 0⟩) ∧
    (s.pending = true →
      (apiStep s (.complete false)).backoff =
        min ((if s.backoff = 0 then 2000 else s.backoff) * 2) 60000 ∧
      (0 < s.backoff → 2 * s.backoff ≤ 60000 →
        (apiStep s (.complete false)).backoff = 2 * s.backoff) ∧
      (apiStep s (.complete false)).backoff ≤ 60000) ∧
    (1 ≤ k → backoffIter k = min (2000 * 2 ^ k) 60000) := by
  refine ⟨?_, ?_, ?_, backoffIter_closed k⟩
  · intro hp
    simp [apiStep, hp]
  · intro hp
    simp [apiStep, hp]
  · intro hp
    have he : (apiStep s (.complete false)).backoff = failedBackoff s.backoff := by
      simp [apiStep, hp]
    refine ⟨by rw [he]; rfl, ?_, ?_⟩
    · intro h0 hcap
      rw [he]
      unfold failedBackoff
      rw [if_neg (by omega)]
      omega
    · rw [he]
      unfold failedBackoff
      split <;> omega

/-- Closed witness for C4: from a pending reset state, the trigger no-op,
the success reset, and the closed form after one failure. -/
theorem C4_witness :
    (⟨true, 0, 0⟩ : ApiState).pending = true ∧
    apiStep ⟨true, 0, 0⟩ (.trigger true true 5000) = ⟨true, 0, 0⟩ ∧
    apiStep ⟨true, 0, 0⟩ (.complete true) = ⟨false, 0, 0⟩ ∧
    (1 : ℕ) ≤ 1 ∧ backoffIter 1 = min (2000 * 2 ^ 1) 60000 := by
  have h := C4_backoff ⟨true, 0, 0⟩ true true 5000 1
  exact ⟨rfl, h.1 rfl, h.2.1 rfl, le_refl 1, h.2.2.2 (le_refl 1)⟩

theorem runGate_append (s : GateState) (l1 l2 : List GEvent) :
    runGate s (l1 ++ l2) = runGate (runGate s l1) l2 := by
  induction l1 generalizing s with
  | nil => rfl
  | cons e es ih =>
    simp only [List.cons_append, runGate]
    exact ih _

theorem gateStateAt_succ_of_eq {s0 : GateState} {es : List GEvent} {i : ℕ}
    {e : GEvent} (he : es[i]? = some e) :
    gateStateAt s0 es (i + 1) = (gstep (gateStateAt s0 es i) e).1 := by
  unfold gateStateAt
  rw [List.take_succ, he, runGate_append]
  rfl

theorem gateStateAt_succ_none {s0 : GateState} {es : List GEvent} {i : ℕ}
    (he : es[i]? = none) :
    gateStateAt s0 es (i + 1) = gateStateAt s0 es i := by
  unfold gateStateAt
  rw [List.take_succ, he]
  simp

theorem gateStep_spec (vo ac : Bool) (M : ℤ) (s : GateState) :
    ((gateStep vo ac M s).2 = true →
      s.held = some M ∧ s.disp ≠ some M ∧ bigChange M s.disp = true) ∧
    (bigChange M s.disp = true → (gateStep vo ac M s).1 =
      ⟨some M, (if s.held = some M then s.count + 1 else 1), some M⟩) ∧
    (bigChange M s.disp = false → (gateStep vo ac M s).1 = s) := by
  refine ⟨?_, ?_, ?_⟩
  · intro h
    cases hb : bigChange M s.disp with
    | false => simp [gateStep, hb] at h
    | true =>
      simp only [gateStep, hb, if_true, Bool.and_eq_true, decide_eq_true_eq] at h
      obtain ⟨⟨⟨hv, ha2⟩, hcount⟩, hdisp⟩ := h
      by_cases hh : s.held = some M
      · exact ⟨hh, hdisp, rfl⟩
      · rw [if_neg hh] at hcount
        omega
  · intro hb
    unfold gateStep
    rw [if_pos hb]
  · intro hb
    unfold gateStep
    rw [if_neg (by simp [hb])]

theorem exists_flip (f : ℕ → Prop) {a b : ℕ} (hab : a ≤ b) (ha : f a)
    (hb : ¬ f b) : ∃ k, a ≤ k ∧ k < b ∧ f k ∧ ¬ f (k + 1) := by
  by_contra hcon
  push_neg at hcon
  have key : ∀ n, a + n ≤ b → f (a + n) := by
    intro n
    induction n with
    | zero => intro _; simpa using ha
    | succ m ih =>
      intro hle
      have h1 := ih (by omega)
      have h2 := hcon (a + m) (by omega) (by omega) h1
      exact h2
  have hfb := key (b - a) (by omega)
  rw [show a + (b - a) = b by omega] at hfb
  exact hb hfb

theorem dispChange_step {s0 : GateState} {es : List GEvent} {v : ℤ} {k : ℕ}
    (hk : (gateStateAt s0 es k).disp = some v)
    (hk1 : (gateStateAt s0 es (k + 1)).disp ≠ some v) :
    ∃ w, (gateStateAt s0 es (k + 1)).disp = some w ∧ 1 ≤ |w - v| := by
  cases he : es[k]? with
  | none => rw [gateStateAt_succ_none he] at hk1; exact absurd hk hk1
  | some e =>
    rw [gateStateAt_succ_of_eq he] at hk1 ⊢
    cases e with
    | setDisp x =>
      simp only [gstep] at hk1 ⊢
      have hxv : x ≠ v := by
        intro hclash
        subst hclash
        exact hk1 rfl
      exact ⟨x, rfl, Int.one_le_abs (sub_ne_zero_of_ne hxv)⟩
    | tick vo ac M =>
      simp only [gstep] at hk1 ⊢
      cases hb : bigChange M (gateStateAt s0 es k).disp with
      | false =>
        rw [(gateStep_spec vo ac M _).2.2 hb] at hk1
        exact absurd hk hk1
      | true =>
        rw [(gateStep_spec vo ac M _).2.1 hb] at hk1 ⊢
        rw [hk] at hb
        simp only [bigChange, decide_eq_true_eq] at hb
        exact ⟨M, rfl, hb⟩

theorem one_le_ticksIn {es : List GEvent} {v : ℤ} {k j : ℕ} {vo ac : Bool}
    (he : es[j]? = some (.tick vo ac v)) (hkj : k < j) :
    1 ≤ ticksIn es v k j := by
  unfold ticksIn
  have hmem : j ∈ (List.range (j + 1)).filter
      (fun t => decide (k < t) && isTickOf es v t) := by
    rw [List.mem_filter]
    refine ⟨List.mem_range.mpr (by omega), ?_⟩
    simp [isTickOf, he, hkj]
  exact List.length_pos.mpr (List.ne_nil_of_mem hmem)

theorem emitAt_some_spec {s0 : GateState} {es : List GEvent} {i : ℕ} {v : ℤ}
    (h : emitAt s0 es i = some v) :
    (∃ vo ac, es[i]? = some (.tick vo ac v)) ∧
    (gateStateAt s0 es i).held = some v ∧
    (gateStateAt s0 es i).disp ≠ some v ∧
    (gateStateAt s0 es (i + 1)).disp = some v := by
  unfold emitAt at h
  cases he : es[i]? with
  | none => rw [he] at h; cases h
  | some e =>
    rw [he] at h
    cases e with
    | setDisp x => simp [gstep] at h
    | tick vo ac M =>
      simp only [gstep] at h
      by_cases hb : (gateStep vo ac M (gateStateAt s0 es i)).2 = true
      · rw [if_pos hb] at h
        have hMv : M = v := by injection h
        subst hMv
        obtain ⟨hheld, hdisp, hbc⟩ := (gateStep_spec vo ac M _).1 hb
        refine ⟨⟨vo, ac, rfl⟩, hheld, hdisp, ?_⟩
        rw [gateStateAt_succ_of_eq he]
        simp only [gstep]
        rw [(gateStep_spec vo ac M _).2.1 hbc]
      · rw [if_neg hb] at h
        cases h

/-- Counterexample to **C6** as stated.  In the trace
tick 5, remote-merge 7, tick 5, remote-merge 7, tick 5 (voice on, audio
unlocked), the gate announces 5 at step 2 and again at step 4; between the
two announcements the displayed score does change by ≥ 1 (the merge to 7),
but only a single tick of 5 follows it: the consecutive-stable counter
carries over from before, so no fresh two-tick confirmation precedes the
second emission. -/
theorem C6_counterexample :
    emitAt gateInit [GEvent.tick true true 5, GEvent.setDisp 7,
      GEvent.tick true true 5, GEvent.setDisp 7, GEvent.tick true true 5] 2 =
      some 5 ∧
    emitAt gateInit [GEvent.tick true true 5, GEvent.setDisp 7,
      GEvent.tick true true 5, GEvent.setDisp 7, GEvent.tick true true 5] 4 =
      some 5 ∧
    ∀ k, 2 < k → k < 4 →
      ¬ (2 ≤ ticksIn [GEvent.tick true true 5, GEvent.setDisp 7,
        GEvent.tick true true 5, GEvent.setDisp 7, GEvent.tick true true 5]
        5 k 4) := by
  refine ⟨by decide, by decide, ?_⟩
  intro k h1 h2
  have hk : k = 3 := by omega
  subst hk
  decide

/-- **C6 (amended).** Over every sequence of gate steps (local ticks
interleaved with external writes of the displayed score): (1) the gate
never emits while Idle (no value held yet); (2) between two emissions of
the same value `v` there is an intervening step at which the displayed
score changes from `v` to a value differing from it by at least 1, and at
least one tick of `v` follows that change up to the second emission — but
a fresh *two*-tick confirmation is not required, because the
consecutive-stable counter is not reset by external display changes. -/
theorem C6_amended_gate (s0 : GateState) (es : List GEvent) :
    (∀ i v, emitAt s0 es i = some v → (gateStateAt s0 es i).held ≠ none) ∧
    (∀ i j v, i < j → emitAt s0 es i = some v → emitAt s0 es j = some v →
      ∃ k, i < k ∧ k < j ∧ (gateStateAt s0 es k).disp = some v ∧
        (∃ w, (gateStateAt s0 es (k + 1)).disp = some w ∧ 1 ≤ |w - v|) ∧
        1 ≤ ticksIn es v k j) := by
  constructor
  · intro i v h
    rw [(emitAt_some_spec h).2.1]
    simp
  · intro i j v hij hi hj
    obtain ⟨⟨voi, aci, hei⟩, _, _, hdisp1⟩ := emitAt_some_spec hi
    obtain ⟨⟨voj, acj, hej⟩, _, hdispj, _⟩ := emitAt_some_spec hj
    have hij1 : i + 1 ≤ j := hij
    obtain ⟨k, hk1, hk2, hfk, hfk1⟩ :=
      exists_flip (fun k => (gateStateAt s0 es k).disp = some v)
        hij1 hdisp1 hdispj
    obtain ⟨w, hw, hwv⟩ := dispChange_step hfk hfk1
    exact ⟨k, by omega, hk2, hfk, ⟨w, hw, hwv⟩, one_le_ticksIn hej (by omega)⟩

/-- Closed witness for the amended C6 on the counterexample trace: both
parts applied at concrete announcing steps. -/
theorem C6_amended_witness :
    emitAt gateInit [GEvent.tick true true 5, GEvent.setDisp 7,
      GEvent.tick true true 5, GEvent.setDisp 7, GEvent.tick true true 5] 2 =
      some 5 ∧
    emitAt gateInit [GEvent.tick true true 5, GEvent.setDisp 7,
      GEvent.tick true true 5, GEvent.setDisp 7, GEvent.tick true true 5] 4 =
      some 5 ∧
    (gateStateAt gateInit [GEvent.tick true true 5, GEvent.setDisp 7,
      GEvent.tick true true 5, GEvent.setDisp 7, GEvent.tick true true 5] 2).held ≠
      none ∧
    (∃ k, 2 < k ∧ k < 4 ∧
      (gateStateAt gateInit [GEvent.tick true true 5, GEvent.setDisp 7,
        GEvent.tick true true 5, GEvent.setDisp 7, GEvent.tick true true 5] k).disp =
        some 5 ∧
      (∃ w, (gateStateAt gateInit [GEvent.tick true true 5, GEvent.setDisp 7,
        GEvent.tick true true 5, GEvent.setDisp 7, GEvent.tick true true 5]
        (k + 1)).disp = some w ∧ 1 ≤ |w - 5|) ∧
      1 ≤ ticksIn [GEvent.tick true true 5, GEvent.setDisp 7,
        GEvent.tick true true 5, GEvent.setDisp 7, GEvent.tick true true 5]
        5 k 4) := by
  refine ⟨by decide, by decide, ?_, ?_⟩
  · exact (C6_amended_gate gateInit _).1 2 5 (by decide)
  · exact (C6_amended_gate gateInit _).2 2 4 5 (by omega) (by decide) (by decide)

/-- Counterexample to **C8** as stated: a non-POST request arriving while
the upstream credential is absent receives 500, not 405 — the handler
checks `OPENAI_API_KEY` before the method. -/
theorem C8_counterexample :
    (analyzeHandler false (("GET").toList) ⟨[], false⟩).1 = 500 ∧
    ("GET").toList ≠ ("POST").toList ∧
    (analyzeHandler false (("GET").toList) ⟨[], false⟩).1 ≠ 405 :=
  ⟨by decide, by decide, by decide⟩

/-- **C8 (amended).** The credential check has precedence: a request with
the upstream credential absent receives 500 regardless of method; with the
credential present, a non-POST request receives 405; with the credential
present, a POST whose (truthy) `image_base64` has estimated decoded size
`length * 0.75 > 400000` bytes receives 413. -/
theorem C8_amended_handler (hasKey : Bool) (method : JStr) (body : ReqBody) :
    (hasKey = false → (analyzeHandler hasKey method body).1 = 500) ∧
    (hasKey = true → method ≠ ("POST").toList →
      (analyzeHandler hasKey method body).1 = 405) ∧
    (hasKey = true → method = ("POST").toList → body.image_base64 ≠ [] →
      1600000 < 3 * body.image_base64.length →
      (analyzeHandler hasKey method body).1 = 413) := by
  refine ⟨?_, ?_, ?_⟩
  · intro h
    subst h
    rfl
  · intro hk hm
    subst hk
    unfold analyzeHandler
    rw [if_neg (by decide), if_pos hm]
  · intro hk hm hne hbig
    subst hk
    unfold analyzeHandler
    rw [if_neg (by decide), if_neg (fun hcon => hcon hm), if_pos ⟨hne, hbig⟩]

set_option maxRecDepth 8192 in
/-- Closed witness for the amended C8, covering all three status branches
(the oversized image is 533334 base64 characters, estimated decoded size
400000.5 bytes). -/
theorem C8_amended_witness :
    (analyzeHandler false (("GET").toList) ⟨[], false⟩).1 = 500 ∧
    (("GET").toList ≠ ("POST").toList ∧
      (analyzeHandler true (("GET").toList) ⟨[], false⟩).1 = 405) ∧
    ((List.replicate 533334 (Char.ofNat 97)) ≠ ([] : List Char) ∧
      1600000 < 3 * (List.replicate 533334 (Char.ofNat 97)).length ∧
      (analyzeHandler true (("POST").toList)
        ⟨List.replicate 533334 (Char.ofNat 97), false⟩).1 = 413) := by
  have hproj : (⟨List.replicate 533334 (Char.ofNat 97), false⟩ :
      ReqBody).image_base64 = List.replicate 533334 (Char.ofNat 97) := rfl
  have hlen : (List.replicate 533334 (Char.ofNat 97)).length = 533334 :=
    List.length_replicate 533334 _
  have hne : (List.replicate 533334 (Char.ofNat 97)) ≠ ([] : List Char) :=
    List.ne_nil_of_length_pos (by rw [hlen]; norm_num)
  have hbig : 1600000 < 3 * (List.replicate 533334 (Char.ofNat 97)).length := by
    rw [hlen]
    norm_num
  have hne2 : (⟨List.replicate 533334 (Char.ofNat 97), false⟩ :
      ReqBody).image_base64 ≠ ([] : List Char) := by
    rw [hproj]
    exact hne
  have hbig2 : 1600000 < 3 * (⟨List.replicate 533334 (Char.ofNat 97), false⟩ :
      ReqBody).image_base64.length := by
    rw [hproj, hlen]
    norm_num
  exact ⟨(C8_amended_handler false (("GET").toList) ⟨[], false⟩).1 rfl,
    ⟨by decide, (C8_amended_handler true (("GET").toList) ⟨[], false⟩).2.1 rfl
      (by decide)⟩,
    hne, hbig,
    (C8_amended_handler true (("POST").toList)
      ⟨List.replicate 533334 (Char.ofNat 97), false⟩).2.2 rfl rfl hne2 hbig2⟩

theorem limitList_bounds (o : Option (List JEntry)) :
    (limitList o).length ≤ 6 ∧ ∀ p ∈ limitList o, p.length ≤ 60 := by
  cases o with
  | none => simp [limitList]
  | some l =>
    constructor
    · simp only [limitList, List.length_map, List.length_take]
      exact min_le_left _ _
    · intro p hp
      simp only [limitList, List.mem_map] at hp
      obtain ⟨q, hq, rfl⟩ := hp
      simp only [List.length_take]
      exact min_le_left _ _

theorem clampZ_bounds (v lo hi : ℤ) (h : lo ≤ hi) :
    lo ≤ clampZ v lo hi ∧ clampZ v lo hi ≤ hi :=
  ⟨le_min h (le_max_left lo v), min_le_left hi _⟩

/-- **C9.** For every input of any shape, `normalizeResult` returns an
object whose score is an integer (a `ℤ` by construction) in `[1,10]`,
whose confidence is an integer in `[0,100]`, whose pros and cons hold at
most 6 entries of at most 60 characters each (non-strings filtered out:
the result lists contain strings only by type), and whose model string has
at most 40 characters. -/
theorem C9_normalizeResult_sanitizes (raw : Option RawShape) :
    (1 ≤ (normalizeResult raw).score ∧ (normalizeResult raw).score ≤ 10) ∧
    (0 ≤ (normalizeResult raw).confidence ∧
      (normalizeResult raw).confidence ≤ 100) ∧
    (normalizeResult raw).pros.length ≤ 6 ∧
    (∀ p ∈ (normalizeResult raw).pros, p.length ≤ 60) ∧
    (normalizeResult raw).cons.length ≤ 6 ∧
    (∀ p ∈ (normalizeResult raw).cons, p.length ≤ 60) ∧
    (normalizeResult raw).model.length ≤ 40 := by
  cases raw with
  | none => decide
  | some r =>
    obtain ⟨hp6, hp60⟩ := limitList_bounds r.pros
    obtain ⟨hc6, hc60⟩ := limitList_bounds r.cons
    refine ⟨?_, ?_, hp6, hp60, hc6, hc60, ?_⟩
    · cases hs : r.score with
      | none => simp [normalizeResult, hs]
      | some q =>
        simp only [normalizeResult, hs]
        exact clampZ_bounds _ 1 10 (by norm_num)
    · cases hs : r.confidence with
      | none => simp [normalizeResult, hs]
      | some q =>
        simp only [normalizeResult, hs]
        exact clampZ_bounds _ 0 100 (by norm_num)
    · cases hm : r.model with
      | none =>
        simp only [normalizeResult, hm]
        decide
      | some m =>
        simp only [normalizeResult, hm, List.length_take]
        exact min_le_left _ _

end PHS
